import Mathlib

/-!
# PortSentinel hybrid retrieval engine — verification development

Shallow embedding of the Hybrid Multi-Stage Retrieval & Fusion Engine
(`src/modules/rag_module`): BM25 lexical search, vector search, query
expansion, per-query hybrid merge, Reciprocal Rank Fusion, reranking and
the retrieval orchestrator.  Numeric scores are embedded as exact
rationals (`ℚ`); external services (the embedding backend, the two LLM
call sites) are parameters supplying their responses, with `Except`
modelling a call that raises.
-/

deriving instance DecidableEq for Except

namespace PortSentinel

/-- An SOP record as stored in `knowledge_base_structured.json`.  The code
accesses it as a JSON dict via `sop.get("Title", "")` / `sop.get("Overview", "")`;
a missing field and an empty field are both observed as `""`, so both are
modelled as `""`.  `resolution` stands for the remaining payload fields and
lets two distinct corpus entries share a `title`. -/
structure Sop where
  title : String
  overview : String
  resolution : String
  deriving DecidableEq, Repr, Inhabited

/-- One named entity of an incident report (`parsing_agent.models.Entity`). -/
structure Entity where
  type : String
  value : String
  deriving DecidableEq, Repr

/-- The fields of `IncidentReport` read by the retrieval engine.  Optional
string fields are modelled as `String` with `""` for `None` (the code only
tests them for truthiness, which identifies the two). -/
structure IncidentReport where
  incidentId : String
  problemSummary : String
  affectedModule : String
  errorCode : String
  additionalNotes : String
  entities : List Entity
  deriving DecidableEq, Repr

/-! ## Tokenisation (`BM25Retriever._tokenize`) -/

/-- The fixed punctuation characters stripped from each token:
Python `token.strip('.,;:!?()[]\x7b\x7d"\x27-')`. -/
def punctChars : List Char :=
  ['.', ',', ';', ':', '!', '?', '(', ')', '[', ']', '\x7b', '\x7d', '"', '\x27', '-']

/-- Strip the punctuation characters from both ends of a token
(Python `str.strip` with a character set). -/
def stripPunct (s : String) : String :=
  let l := s.toList.dropWhile (fun c => punctChars.contains c)
  String.mk ((l.reverse.dropWhile (fun c => punctChars.contains c)).reverse)

/-- `BM25Retriever._tokenize`: lowercase, split on whitespace, strip the fixed
punctuation set from each token and drop empty tokens. -/
def tokenize (text : String) : List String :=
  ((text.toLower.split Char.isWhitespace).map stripPunct).filter (fun t => t ≠ "")

/-! ## BM25 lexical search (`BM25Retriever.search` / `search_normalized`)

The scoring call `self.bm25.get_scores(tokenized_query)` goes to the external
`rank_bm25.BM25Okapi` library, which returns one score per corpus document;
it is abstracted as a `getScores` parameter.  The repository code then takes
`np.argsort(scores)[::-1][:k]`: an ascending argsort (stable for the small
arrays involved), reversed, truncated to `k`. -/

/-- Insert index `i` into an index list sorted ascending by score, after all
indices of score ≤ its own (the behaviour of a stable ascending sort when
indices are added in increasing order). -/
def insertAscIdx (scores : List ℚ) (i : ℕ) : List ℕ → List ℕ
  | [] => [i]
  | j :: js =>
    if scores.getD i 0 < scores.getD j 0 then i :: j :: js
    else j :: insertAscIdx scores i js

/-- Stable ascending argsort of a score vector: the indices
`0, …, scores.length - 1` ordered by increasing score, ties in index order. -/
def argsortAsc (scores : List ℚ) : List ℕ :=
  (List.range scores.length).foldl (fun acc i => insertAscIdx scores i acc) []

/-- `BM25Retriever.search`: tokenize the query, obtain the per-document score
vector from the BM25 library, and return the documents at the indices
`np.argsort(scores)[::-1][:k]` paired with their raw scores. -/
def bm25Search (corpus : List Sop) (getScores : List String → List ℚ)
    (query : String) (k : ℕ) : List (Sop × ℚ) :=
  let scores := getScores (tokenize query)
  (((argsortAsc scores).reverse).take k).map
    (fun i => (corpus.getD i default, scores.getD i 0))

/-- `BM25Retriever.normalize_scores`: min-max normalisation of the returned
raw scores; when all scores are equal (including a single result) every
normalised score is `1`. -/
def normalizeScores (results : List (Sop × ℚ)) : List (Sop × ℚ) :=
  match results with
  | [] => []
  | r :: rs =>
    let mn := rs.foldl (fun a p => min a p.2) r.2
    let mx := rs.foldl (fun a p => max a p.2) r.2
    if mx = mn then (r :: rs).map (fun p => (p.1, (1 : ℚ)))
    else (r :: rs).map (fun p => (p.1, (p.2 - mn) / (mx - mn)))

/-- `BM25Retriever.search_normalized`. -/
def bm25SearchNormalized (corpus : List Sop) (getScores : List String → List ℚ)
    (query : String) (k : ℕ) : List (Sop × ℚ) :=
  normalizeScores (bm25Search corpus getScores query k)

/-! ## Vector search (`VectorStoreInterface.search_with_scores`) -/

/-- A LangChain `Document` coming back from the Chroma index: the engine only
reads `metadata.get('full_sop_json')` and JSON-decodes it.  A missing key and
a string that fails to decode are both observed as no SOP, hence `Option`. -/
structure VecDoc where
  fullSopJson : Option Sop
  deriving DecidableEq, Repr

/-- `VectorStoreInterface.search_with_scores`.  `ranking query` abstracts the
Chroma backend's full nearest-neighbour ordering (header-filtered, paired with
distances, nearest first); a backend call with `k` returns its first `k`
entries.  The code queries the backend with the hardcoded `search_k = 5`,
converts each distance to `similarity = 1 - distance`, and returns the first
`k` converted pairs.  An empty or whitespace query raises `ValueError`. -/
def searchWithScores (ranking : String → List (VecDoc × ℚ))
    (query : String) (k : ℕ) : Except String (List (VecDoc × ℚ)) :=
  if query.trim = "" then .error "Query cannot be empty"
  else .ok ((((ranking query).take 5).map (fun p => (p.1, 1 - p.2))).take k)

/-! ## Per-query hybrid merge (`HybridRagAgent._hybrid_search_single_query`) -/

/-- One row of the per-query hybrid result:
`(sop, hybrid_score, source, bm25_score, vector_score)`. -/
structure HybridRow where
  sop : Sop
  hybridScore : ℚ
  source : String
  bm25Score : ℚ
  vectorScore : ℚ
  deriving DecidableEq, Repr

/-- One binding of the ordered `results_dict`:
`sop_id ↦ (sop, bm25_score, vector_score)` keyed by the SOP's `Title`. -/
structure MergeEntry where
  key : String
  sop : Sop
  bm25Score : ℚ
  vectorScore : ℚ
  deriving DecidableEq, Repr

/-- `results_dict[sop_id] = (sop, bm25_score, 0.0)` — an insertion-ordered
dict update: an existing key keeps its position but is overwritten with the
new sop, score and a zero vector score; a new key is appended. -/
def setBm (st : List MergeEntry) (s : Sop) (score : ℚ) : List MergeEntry :=
  if st.any (fun e => e.key = s.title) then
    st.map (fun e => if e.key = s.title then ⟨e.key, s, score, 0⟩ else e)
  else st ++ [⟨s.title, s, score, 0⟩]

/-- The vector-loop dict update: an existing key keeps its sop and bm25 score
and receives the vector score; a new key is appended with bm25 score `0`. -/
def setVec (st : List MergeEntry) (s : Sop) (score : ℚ) : List MergeEntry :=
  if st.any (fun e => e.key = s.title) then
    st.map (fun e => if e.key = s.title then ⟨e.key, e.sop, e.bm25Score, score⟩ else e)
  else st ++ [⟨s.title, s, 0, score⟩]

/-- The two merge loops of `_hybrid_search_single_query`: BM25 results first,
then vector results, skipping any result whose `Title` is empty. -/
def mergeResults (bmResults vecResults : List (Sop × ℚ)) : List MergeEntry :=
  let st1 := bmResults.foldl (fun st p => if p.1.title ≠ "" then setBm st p.1 p.2 else st) []
  vecResults.foldl (fun st p => if p.1.title ≠ "" then setVec st p.1 p.2 else st) st1

/-- The provenance tag computed from the merged scores: `both` iff both
scores are positive, else `bm25` iff the bm25 score is positive, else
`vector`. -/
def sourceTag (bm vec : ℚ) : String :=
  if 0 < bm ∧ 0 < vec then "both" else if 0 < bm then "bm25" else "vector"

/-- The hybrid-score rows built from the merged dict:
`hybrid = bm25_weight·bm25 + vector_weight·vector` with the provenance tag. -/
def hybridRows (bmW vecW : ℚ) (st : List MergeEntry) : List HybridRow :=
  st.map (fun e =>
    ⟨e.sop, bmW * e.bm25Score + vecW * e.vectorScore,
      sourceTag e.bm25Score e.vectorScore, e.bm25Score, e.vectorScore⟩)

/-- Stable descending insertion by a rational key (`list.sort` with
`reverse=True` is a stable sort). -/
def insertDescBy (f : α → ℚ) (x : α) : List α → List α
  | [] => [x]
  | y :: ys => if f y ≤ f x then x :: y :: ys else y :: insertDescBy f x ys

/-- Stable sort, descending by a rational key. -/
def sortDescBy (f : α → ℚ) : List α → List α
  | [] => []
  | x :: xs => insertDescBy f x (sortDescBy f xs)

/-- The pure core of `_hybrid_search_single_query`: merge the (normalised)
BM25 results and the vector results by `Title`, compute hybrid scores and
tags, and sort descending by hybrid score. -/
def hybridMerge (bmResults vecResults : List (Sop × ℚ)) (bmW vecW : ℚ) : List HybridRow :=
  sortDescBy (fun r => r.hybridScore) (hybridRows bmW vecW (mergeResults bmResults vecResults))

/-- `_hybrid_search_single_query` with its two `try/except` blocks: a BM25
backend failure (or an absent BM25 retriever) yields an empty BM25 list, a
vector backend failure yields an empty vector list; vector documents whose
`full_sop_json` is missing or undecodable are skipped. -/
def hybridSearchSingleQuery (bm25Fn : String → ℕ → Except String (List (Sop × ℚ)))
    (vectorFn : String → ℕ → Except String (List (VecDoc × ℚ)))
    (bmW vecW : ℚ) (query : String) (k : ℕ) : List HybridRow :=
  let bmResults := match bm25Fn query k with
    | .ok r => r
    | .error _ => []
  let vecRaw := match vectorFn query k with
    | .ok r => r
    | .error _ => []
  let vecResults := vecRaw.filterMap (fun p => p.1.fullSopJson.map (fun s => (s, p.2)))
  hybridMerge bmResults vecResults bmW vecW

/-! ## Reciprocal Rank Fusion (`HybridRagAgent._reciprocal_rank_fusion`) -/

/-- One binding of the fusion state: `sop_id ↦ (first-seen sop, rrf score)`,
combining the code's `rrf_scores` defaultdict and `sop_dict`. -/
structure RrfEntry where
  key : String
  sop : Sop
  score : ℚ
  deriving DecidableEq, Repr

/-- Processing one ranked row at a given 0-based rank:
skip an empty `Title`; otherwise add `1 / (k + rank + 1)` to the title's
cumulative score, keeping the first-seen sop, appending a new title. -/
def rrfAdd (k : ℕ) (st : List RrfEntry) (rank : ℕ) (s : Sop) : List RrfEntry :=
  if s.title = "" then st
  else if st.any (fun e => e.key = s.title) then
    st.map (fun e =>
      if e.key = s.title then ⟨e.key, e.sop, e.score + 1 / ((k : ℚ) + rank + 1)⟩ else e)
  else st ++ [⟨s.title, s, 1 / ((k : ℚ) + rank + 1)⟩]

/-- `for rank, (sop, …) in enumerate(query_results)` starting at a given
rank. -/
def rrfProcessFrom (k : ℕ) (rank : ℕ) (st : List RrfEntry) : List HybridRow → List RrfEntry
  | [] => st
  | row :: rest => rrfProcessFrom k (rank + 1) (rrfAdd k st rank row.sop) rest

/-- Accumulate all per-query ranked lists into the fusion state. -/
def rrfState (k : ℕ) (lists : List (List HybridRow)) : List RrfEntry :=
  lists.foldl (fun st l => rrfProcessFrom k 0 st l) []

/-- `_reciprocal_rank_fusion`: accumulate contributions per title across all
per-query rankings and sort descending by cumulative score. -/
def reciprocalRankFusion (lists : List (List HybridRow)) (k : ℕ) : List (Sop × ℚ) :=
  sortDescBy (fun p => p.2) ((rrfState k lists).map (fun e => (e.sop, e.score)))

/-! ## Rerankers (`SemanticReranker.rerank`, `SimpleReranker.rerank`) -/

/-- Python truthiness of the `top_k` argument: `if top_k: results = results[:top_k]`
truncates only when `top_k` is neither `None` nor `0`. -/
def truncOpt (topK : Option ℕ) (l : List α) : List α :=
  match topK with
  | some t => if t = 0 then l else l.take t
  | none => l

/-- The integers parsed from the LLM rerank response:
`[int(x.strip()) for x in response.strip().split(",") if x.strip().isdigit()]`. -/
def rawIndices (response : String) : List ℕ :=
  (((response.trim.splitOn ",").map String.trim).filter
    (fun t => t ≠ "" ∧ t.all Char.isDigit)).map (fun t => t.toNat?.getD 0)

/-- The parsed indices kept after the range check `0 <= i < len(candidates)`
(no uniqueness check is performed). -/
def parsedIndices (response : String) (n : ℕ) : List ℕ :=
  (rawIndices response).filter (fun i => i < n)

/-- `SemanticReranker.rerank`.  `llmResponse` is the outcome of
`self.chain.invoke(...)`: `.error` models the call raising (timeout, backend
error), which the method's own `except` turns into the candidates in their
original order with scores `1/(i+1)`.  On `.ok response` the comma-separated
indices are parsed, range-checked, replaced by `range(len(candidates))` when
no valid index remains, completed with the missing indices in original order,
scored `1/(rank+1)` and truncated by the truthiness of `top_k`. -/
def semanticRerank (_query : String) (candidates : List Sop) (topK : Option ℕ)
    (llmResponse : Except String String) : List (Sop × ℚ) :=
  if candidates.isEmpty then []
  else
    match llmResponse with
    | .error _ =>
        (truncOpt topK candidates).enum.map (fun p => (p.2, 1 / ((p.1 : ℚ) + 1)))
    | .ok response =>
        let valid := parsedIndices response candidates.length
        let base := if valid.isEmpty then List.range candidates.length else valid
        let missing := (List.range candidates.length).filter (fun i => ¬ base.contains i)
        let ranked := base ++ missing
        let results := ranked.enum.map
          (fun p => (candidates.getD p.2 default, 1 / ((p.1 : ℚ) + 1)))
        truncOpt topK results

/-- Python `set(text.split())`: whitespace-split token set, duplicates
removed. -/
def tokenSet (s : String) : List String :=
  ((s.split Char.isWhitespace).filter (fun t => t ≠ "")).dedup

/-- Token-set Jaccard overlap `len(a & b) / max(len(a | b), 1)` for
duplicate-free token lists. -/
def overlapScore (a b : List String) : ℚ :=
  ((a.filter (fun t => b.contains t)).length : ℚ) /
    ((max (a.length + (b.filter (fun t => ¬ a.contains t)).length) 1 : ℕ) : ℚ)

/-- `SimpleReranker.rerank`: lexical-overlap scoring — Jaccard overlap of the
lowercased query token set with the title token set (weight 7/10) plus the
overview token set (weight 3/10) — sorted descending, truncated by the
truthiness of `top_k`. -/
def simpleRerank (query : String) (candidates : List Sop) (topK : Option ℕ) :
    List (Sop × ℚ) :=
  let qTokens := tokenSet query.toLower
  let scored := candidates.map (fun s =>
    (s, (7 : ℚ) / 10 * overlapScore qTokens (tokenSet s.title.toLower) +
        (3 : ℚ) / 10 * overlapScore qTokens (tokenSet s.overview.toLower)))
  truncOpt topK (sortDescBy (fun p => p.2) scored)

/-! ## Query expansion (`QueryExpander.expand_from_report`) -/

/-- The entity strings `"type: value"` for entities with non-empty type and
value. -/
def entityStrings (report : IncidentReport) : List String :=
  report.entities.filterMap (fun e =>
    if e.type ≠ "" ∧ e.value ≠ "" then some (e.type ++ ": " ++ e.value) else none)

/-- The expander's deterministic original query: error code, problem summary,
module and the joined entity list, each included when non-empty, joined with
`" | "`; empty result falls back to the problem summary, then to
`"Technical incident report"`. -/
def expanderOriginalQuery (report : IncidentReport) : String :=
  let parts :=
    (if report.errorCode ≠ "" then ["Error code: " ++ report.errorCode] else []) ++
    (if report.problemSummary ≠ "" then [report.problemSummary] else []) ++
    (if report.affectedModule ≠ "" then ["Module: " ++ report.affectedModule] else []) ++
    (if (entityStrings report).isEmpty then []
     else ["Entities: " ++ String.intercalate ", " (entityStrings report)])
  let joined := String.intercalate " | " parts
  if joined ≠ "" then joined
  else if report.problemSummary ≠ "" then report.problemSummary
  else "Technical incident report"

/-- The variant-collection loop: append a generated line when it was not
appended before and differs case-insensitively from the original query, and
break as soon as the accumulator has at least `numVariants` entries — the
break is tested only after a possible append. -/
def collectVariants (original : String) (numVariants : ℕ) :
    List String → List String → List String
  | [], acc => acc.reverse
  | v :: vs, acc =>
    let acc2 := if ¬ acc.contains v ∧ v.toLower ≠ original.toLower then v :: acc else acc
    if numVariants ≤ acc2.length then acc2.reverse
    else collectVariants original numVariants vs acc2

/-- `QueryExpander.expand_from_report`.  `llmResponse` is the outcome of
`self.llm.invoke(messages)` — the call is made unconditionally, and a failure
is re-raised as `RuntimeError("LLM query expansion failed: …")` (the method
itself returns no fallback).  On success the response is split into lines,
trimmed, filtered of empties, and the collection loop appends variants after
the original query.  (`num_variants` is a natural number here, so the
`ValueError` branch for negatives does not arise.) -/
def expandFromReport (report : IncidentReport) (numVariants : ℕ)
    (llmResponse : Except String String) : Except String (List String) :=
  let original := expanderOriginalQuery report
  match llmResponse with
  | .error e => .error ("LLM query expansion failed: " ++ e)
  | .ok content =>
      let generated := ((content.splitOn "\n").map String.trim).filter (fun l => l ≠ "")
      .ok (original :: collectVariants original numVariants generated [])

/-! ## Retrieval orchestrator (`HybridRagAgent.retrieve`) -/

/-- `RetrievalMetrics` (rag_agent/models.py). -/
structure RetrievalMetrics where
  numExpandedQueries : ℕ
  numBm25Candidates : ℕ
  numVectorCandidates : ℕ
  numMergedCandidates : ℕ
  numAfterRrf : ℕ
  numFinalResults : ℕ
  bm25Weight : ℚ
  vectorWeight : ℚ
  rrfK : ℕ
  deriving DecidableEq, Repr

/-- `EnrichedContext` (rag_agent/models.py), with `retrieved_sops` the list of
full SOP records. -/
structure EnrichedContext where
  originalReport : IncidentReport
  expandedQueries : List String
  retrievedSops : List Sop
  retrievalSummary : String
  retrievalMetrics : RetrievalMetrics
  deriving DecidableEq, Repr

/-- `HybridRagAgent._build_search_query`: the orchestrator's own deterministic
query — error code when present, the problem summary unconditionally, the
module when present, and the first 5 entities filtered to the four key entity
types, joined with `" | "`. -/
def buildSearchQuery (report : IncidentReport) : String :=
  let parts :=
    (if report.errorCode ≠ "" then ["Error code: " ++ report.errorCode] else []) ++
    [report.problemSummary] ++
    (if report.affectedModule ≠ "" then ["Module: " ++ report.affectedModule] else []) ++
    ((report.entities.take 5).filterMap (fun e =>
      if ["container_number", "vessel_name", "error_code", "message_type"].contains e.type
      then some (e.type ++ ": " ++ e.value) else none))
  String.intercalate " | " parts

/-- `HybridRagAgent._generate_summary`. -/
def generateSummary (report : IncidentReport) (finalSops : List Sop)
    (numQueries : ℕ) (numCandidatesAfterRrf : ℕ) : String :=
  match finalSops with
  | [] =>
      "No relevant SOPs found for incident " ++ report.incidentId ++
      " after multi-query hybrid search. Manual review recommended."
  | top :: _ =>
      let parts :=
        ["Retrieved " ++ toString finalSops.length ++ " SOP(s) for incident " ++
           report.incidentId ++
           " using hybrid search (BM25 + Vector + Multi-Query + RRF + Rerank).",
         "Generated " ++ toString numQueries ++ " query variants.",
         "Processed " ++ toString numCandidatesAfterRrf ++ " candidates after RRF.",
         "Top match: " ++ top.title] ++
        (if report.affectedModule ≠ "" then ["Affected module: " ++ report.affectedModule]
         else []) ++
        (if report.errorCode ≠ "" then ["Error code: " ++ report.errorCode] else [])
      String.intercalate " " parts

/-- Step 1 of `retrieve`: the expanded query set.  `expandFn` is the outcome
of `self.query_expander.expand_from_report(...)`; when it raises, the
`except` branch logs and substitutes `[original_query]` built by
`_build_search_query`. -/
def expandedQueriesOf (report : IncidentReport)
    (expandFn : Except String (List String)) : List String :=
  match expandFn with
  | .ok qs => qs
  | .error _ => [buildSearchQuery report]

/-- Step 2 of `retrieve`: one hybrid search per expanded query. -/
def allQueryResultsOf (report : IncidentReport)
    (expandFn : Except String (List String))
    (bm25Fn : String → ℕ → Except String (List (Sop × ℚ)))
    (vectorFn : String → ℕ → Except String (List (VecDoc × ℚ)))
    (bmW vecW : ℚ) (kPerQuery : ℕ) : List (List HybridRow) :=
  (expandedQueriesOf report expandFn).map
    (fun q => hybridSearchSingleQuery bm25Fn vectorFn bmW vecW q kPerQuery)

/-- Step 3 of `retrieve`: the RRF ranking truncated to `top_k_after_rrf`. -/
def rrfTopOf (report : IncidentReport)
    (expandFn : Except String (List String))
    (bm25Fn : String → ℕ → Except String (List (Sop × ℚ)))
    (vectorFn : String → ℕ → Except String (List (VecDoc × ℚ)))
    (bmW vecW : ℚ) (rrfK kPerQuery topKAfterRrf : ℕ) : List (Sop × ℚ) :=
  (reciprocalRankFusion
    (allQueryResultsOf report expandFn bm25Fn vectorFn bmW vecW kPerQuery) rrfK).take
    topKAfterRrf

/-- `HybridRagAgent.retrieve`.  The external stages are parameters:
`expandFn` the query-expander outcome, `bm25Fn` the outcome of
`search_normalized`, `vectorFn` the outcome of `search_with_scores` (each
`.error` models that call raising), and `rerankFn` the configured reranker
(`.error` models `reranker.rerank` raising, caught by `retrieve`'s own
`except` which keeps the fusion survivors truncated to `final_top_k`).
Every backend failure is caught at its stage boundary, so the function
returns `Except.ok` of the assembled `EnrichedContext` for every input. -/
def retrieve (report : IncidentReport)
    (expandFn : Except String (List String))
    (bm25Fn : String → ℕ → Except String (List (Sop × ℚ)))
    (vectorFn : String → ℕ → Except String (List (VecDoc × ℚ)))
    (rerankFn : String → List Sop → Option ℕ → Except String (List (Sop × ℚ)))
    (bmW vecW : ℚ) (rrfK kPerQuery topKAfterRrf finalTopK : ℕ) :
    Except String EnrichedContext :=
  let originalQuery := buildSearchQuery report
  let expandedQueries := expandedQueriesOf report expandFn
  let allQueryResults := allQueryResultsOf report expandFn bm25Fn vectorFn bmW vecW kPerQuery
  let totalBm25 := (allQueryResults.map (fun qr =>
    (qr.filter (fun r => r.source = "bm25" ∨ r.source = "both")).length)).sum
  let totalVector := (allQueryResults.map (fun qr =>
    (qr.filter (fun r => r.source = "vector" ∨ r.source = "both")).length)).sum
  let rrfResults := reciprocalRankFusion allQueryResults rrfK
  let rrfTopK := rrfResults.take topKAfterRrf
  let candidateSops := rrfTopK.map (fun p => p.1)
  let reranked := match rerankFn originalQuery candidateSops (some finalTopK) with
    | .ok r => r
    | .error _ => rrfTopK.take finalTopK
  let finalSops := reranked.map (fun p => p.1)
  let summary := generateSummary report finalSops expandedQueries.length rrfTopK.length
  Except.ok
    { originalReport := report
      expandedQueries := expandedQueries
      retrievedSops := finalSops
      retrievalSummary := summary
      retrievalMetrics :=
        { numExpandedQueries := expandedQueries.length
          numBm25Candidates := totalBm25
          numVectorCandidates := totalVector
          numMergedCandidates := rrfResults.length
          numAfterRrf := rrfTopK.length
          numFinalResults := finalSops.length
          bm25Weight := bmW
          vectorWeight := vecW
          rrfK := rrfK } }

/-- The documents list of a retrieval outcome (empty for a raised call). -/
def retrievedOf (r : Except String EnrichedContext) : List Sop :=
  match r with
  | .ok ctx => ctx.retrievedSops
  | .error _ => []

/-- The expanded-queries list of a retrieval outcome. -/
def queriesOf (r : Except String EnrichedContext) : List String :=
  match r with
  | .ok ctx => ctx.expandedQueries
  | .error _ => []

/-! ## General lemmas about the sorting and truncation helpers -/

/-- The titles of a scored result list. -/
def titlesOf (l : List (Sop × ℚ)) : List String := l.map (fun p => p.1.title)

/-- The titles of a list of hybrid rows. -/
def rowTitles (l : List HybridRow) : List String := l.map (fun r => r.sop.title)

/-! ## Concrete fixtures used by the counterexamples and witnesses -/

/-- Fixture SOP A. -/
def exA : Sop := ⟨"Vessel duplicate name error", "", "resA"⟩

/-- Fixture SOP B. -/
def exB : Sop := ⟨"Container gate timeout", "", "resB"⟩

/-- Fixture report whose deterministic query is `"duplicate vessel name"`. -/
def rptDup : IncidentReport := ⟨"ALR-1", "duplicate vessel name", "", "", "", []⟩

/-- Fixture report whose deterministic query is `"container gate timeout"`. -/
def rptGate : IncidentReport := ⟨"ALR-2", "container gate timeout", "", "", "", []⟩

/-- Fixture report for the query-expansion claims. -/
def rptStuck : IncidentReport := ⟨"ALR-3", "vessel stuck", "", "", "", []⟩

/-- A BM25 stage returning A (normalised score 1) above B (normalised
score 0). -/
def bm25FnAB : String → ℕ → Except String (List (Sop × ℚ)) :=
  fun _ _ => .ok [(exA, 1), (exB, 0)]

/-- A BM25 stage returning A (score 1) above B (score 1/2). -/
def bm25FnAB2 : String → ℕ → Except String (List (Sop × ℚ)) :=
  fun _ _ => .ok [(exA, 1), (exB, 1 / 2)]

/-- A vector stage returning no documents. -/
def vectorFnEmpty : String → ℕ → Except String (List (VecDoc × ℚ)) :=
  fun _ _ => .ok []

/-- Fixture row: the merged row for `exB` when only the lexical source
returned it, with normalised score `0`. -/
def rowB : HybridRow := ⟨exB, 0, "vector", 0, 0⟩

/-! ## C9 — the vector backend is queried with a hardcoded `search_k = 5` -/

/-- A header ranking with six nearest neighbours at increasing distance. -/
def rankingSix : String → List (VecDoc × ℚ) :=
  fun _ => [(⟨none⟩, 1 / 10), (⟨none⟩, 2 / 10), (⟨none⟩, 3 / 10),
            (⟨none⟩, 4 / 10), (⟨none⟩, 5 / 10), (⟨none⟩, 6 / 10)]

/-- The length of a successful search result (`0` for a raised call). -/
def searchResultLen (r : Except String (List (VecDoc × ℚ))) : ℕ :=
  match r with
  | .ok l => l.length
  | .error _ => 0

/-! ## C7 — Reciprocal Rank Fusion contributions -/

/-- The cumulative fusion score attached to title `t` in the fused output:
the sum of the scores of fused pairs whose document has title `t` (`0` when
the title is absent). -/
def fusionScoreOf (lists : List (List HybridRow)) (k : ℕ) (t : String) : ℚ :=
  (((reciprocalRankFusion lists k).filter (fun p => p.1.title = t)).map
    (fun p => p.2)).sum

/-- The 0-based rank of the first row with title `t` in a ranked list. -/
def rankOfTitle (t : String) : List HybridRow → Option ℕ
  | [] => none
  | row :: rest =>
    if row.sop.title = t then some 0 else (rankOfTitle t rest).map (fun r => r + 1)

/-- The contribution one ranked list owes to title `t` according to the
spec sentence: `1 / (k + r + 1)` when the title sits at 0-based rank `r`,
`0` when the list does not contain it. -/
def specContrib (t : String) (k : ℕ) (l : List HybridRow) : ℚ :=
  match rankOfTitle t l with
  | some r => 1 / ((k : ℚ) + r + 1)
  | none => 0

/-- The cumulative score of title `t` in the fusion state. -/
def stateScore (t : String) (st : List RrfEntry) : ℚ :=
  ((st.filter (fun e => e.key = t)).map (fun e => e.score)).sum

/-- The contribution accumulated by the enumeration loop from a ranked list
processed starting at a given rank. -/
def contribFrom (t : String) (k : ℕ) : ℕ → List HybridRow → ℚ
  | _, [] => 0
  | rank, row :: rest =>
    (if row.sop.title = t then 1 / ((k : ℚ) + rank + 1) else 0) +
      contribFrom t k (rank + 1) rest

/-- Fixture hybrid row for document A at rank 0. -/
def rowA : HybridRow := ⟨exA, 2 / 5, "bm25", 1, 0⟩

/-! ## C8 amended — argsort ordering and reverse-tie order -/

/-- The order produced by the stable ascending argsort: strictly smaller
score first, ties in increasing index order. -/
def argRel (scores : List ℚ) (i j : ℕ) : Prop :=
  scores.getD i 0 < scores.getD j 0 ∨ (scores.getD i 0 = scores.getD j 0 ∧ i < j)

theorem insertDescBy_perm (f : α → ℚ) (x : α) (l : List α) :
    (insertDescBy f x l).Perm (x :: l) := by
  induction l with
  | nil => simp [insertDescBy]
  | cons y ys ih =>
    by_cases h : f y ≤ f x
    · simp [insertDescBy, h]
    · simp only [insertDescBy, if_neg h]
      exact (ih.cons y).trans (List.Perm.swap x y ys)

theorem sortDescBy_perm (f : α → ℚ) (l : List α) : (sortDescBy f l).Perm l := by
  induction l with
  | nil => simp [sortDescBy]
  | cons x xs ih =>
    exact (insertDescBy_perm f x (sortDescBy f xs)).trans (ih.cons x)

theorem mem_sortDescBy {f : α → ℚ} {l : List α} {a : α} :
    a ∈ sortDescBy f l ↔ a ∈ l :=
  (sortDescBy_perm f l).mem_iff

theorem truncOpt_sublist (topK : Option ℕ) (l : List α) :
    (truncOpt topK l).Sublist l := by
  match topK with
  | none => exact List.Sublist.refl l
  | some t =>
    by_cases h : t = 0
    · simp [truncOpt, h]
    · simp only [truncOpt, if_neg h]
      exact List.take_sublist t l

theorem truncOpt_of_pos {t : ℕ} (h : 0 < t) (l : List α) :
    truncOpt (some t) l = l.take t := by
  simp [truncOpt, Nat.pos_iff_ne_zero.mp h]

theorem length_truncOpt_le {t : ℕ} (h : 0 < t) (l : List α) :
    (truncOpt (some t) l).length ≤ t := by
  rw [truncOpt_of_pos h]
  simp [List.length_take]

theorem map_fst_enum_map (l : List α) (f : ℕ → β) :
    (((l.enum).map (fun p => (p.2, f p.1))).map Prod.fst) = l := by
  rw [List.map_map]
  have : (Prod.fst ∘ fun p : ℕ × α => (p.2, f p.1)) = Prod.snd := rfl
  rw [this]
  exact List.enum_map_snd l

theorem foldl_induction {P : β → Prop} (f : β → α → β) (l : List α) (st : β)
    (h0 : P st) (hstep : ∀ st a, a ∈ l → P st → P (f st a)) : P (l.foldl f st) := by
  induction l generalizing st with
  | nil => exact h0
  | cons x xs ih =>
    exact ih (f st x) (hstep st x (List.mem_cons_self x xs) h0)
      (fun st' a ha => hstep st' a (List.mem_cons_of_mem x ha))

/-! ## Key-set lemmas for the ordered-dict folds -/

theorem keys_setBm (st : List MergeEntry) (s : Sop) (c : ℚ) (t : String) :
    (t ∈ (setBm st s c).map (fun e => e.key) ↔
      t ∈ st.map (fun e => e.key) ∨ t = s.title) ∧
    (((st.map (fun e => e.key)).Nodup → ((setBm st s c).map (fun e => e.key)).Nodup)) := by
  by_cases h : st.any (fun e => e.key = s.title)
  · have hkeys : (setBm st s c).map (fun e => e.key) = st.map (fun e => e.key) := by
      rw [setBm, if_pos h, List.map_map]
      refine List.map_congr_left (fun e _ => ?_)
      by_cases he : e.key = s.title <;> simp [he]
    have hmem : s.title ∈ st.map (fun e => e.key) := by
      rcases List.any_eq_true.mp h with ⟨e, he, hkey⟩
      exact List.mem_map.mpr ⟨e, he, decide_eq_true_eq.mp hkey⟩
    rw [hkeys]
    exact ⟨⟨Or.inl, fun hc => hc.elim id (fun ht => ht ▸ hmem)⟩, id⟩
  · have hkeys : (setBm st s c).map (fun e => e.key) =
        st.map (fun e => e.key) ++ [s.title] := by
      rw [setBm, if_neg h]
      simp
    have habs : s.title ∉ st.map (fun e => e.key) := by
      intro hc
      rcases List.mem_map.mp hc with ⟨e, he, hkey⟩
      exact h (List.any_eq_true.mpr ⟨e, he, decide_eq_true_eq.mpr hkey⟩)
    rw [hkeys]
    constructor
    · simp [List.mem_append]
    · intro hnd
      rw [List.nodup_append]
      refine ⟨hnd, List.nodup_singleton _, ?_⟩
      intro a ha hb
      rw [List.mem_singleton] at hb
      exact habs (hb ▸ ha)

theorem keys_setVec (st : List MergeEntry) (s : Sop) (c : ℚ) (t : String) :
    (t ∈ (setVec st s c).map (fun e => e.key) ↔
      t ∈ st.map (fun e => e.key) ∨ t = s.title) ∧
    (((st.map (fun e => e.key)).Nodup → ((setVec st s c).map (fun e => e.key)).Nodup)) := by
  by_cases h : st.any (fun e => e.key = s.title)
  · have hkeys : (setVec st s c).map (fun e => e.key) = st.map (fun e => e.key) := by
      rw [setVec, if_pos h, List.map_map]
      refine List.map_congr_left (fun e _ => ?_)
      by_cases he : e.key = s.title <;> simp [he]
    have hmem : s.title ∈ st.map (fun e => e.key) := by
      rcases List.any_eq_true.mp h with ⟨e, he, hkey⟩
      exact List.mem_map.mpr ⟨e, he, decide_eq_true_eq.mp hkey⟩
    rw [hkeys]
    exact ⟨⟨Or.inl, fun hc => hc.elim id (fun ht => ht ▸ hmem)⟩, id⟩
  · have hkeys : (setVec st s c).map (fun e => e.key) =
        st.map (fun e => e.key) ++ [s.title] := by
      rw [setVec, if_neg h]
      simp
    have habs : s.title ∉ st.map (fun e => e.key) := by
      intro hc
      rcases List.mem_map.mp hc with ⟨e, he, hkey⟩
      exact h (List.any_eq_true.mpr ⟨e, he, decide_eq_true_eq.mpr hkey⟩)
    rw [hkeys]
    constructor
    · simp [List.mem_append]
    · intro hnd
      rw [List.nodup_append]
      refine ⟨hnd, List.nodup_singleton _, ?_⟩
      intro a ha hb
      rw [List.mem_singleton] at hb
      exact habs (hb ▸ ha)

@[simp] theorem titlesOf_nil : titlesOf [] = [] := rfl

@[simp] theorem titlesOf_cons (p : Sop × ℚ) (l : List (Sop × ℚ)) :
    titlesOf (p :: l) = p.1.title :: titlesOf l := rfl

theorem mem_titlesOf {t : String} {l : List (Sop × ℚ)} (p : Sop × ℚ)
    (hp : p ∈ l) (ht : p.1.title = t) : t ∈ titlesOf l :=
  List.mem_map.mpr ⟨p, hp, ht⟩

theorem keys_bmFold (l : List (Sop × ℚ)) :
    ∀ (st : List MergeEntry) (t : String),
      (t ∈ (l.foldl (fun st p => if p.1.title ≠ "" then setBm st p.1 p.2 else st) st).map
          (fun e => e.key) ↔
        t ∈ st.map (fun e => e.key) ∨ (t ≠ "" ∧ t ∈ titlesOf l)) ∧
      ((st.map (fun e => e.key)).Nodup →
        ((l.foldl (fun st p => if p.1.title ≠ "" then setBm st p.1 p.2 else st) st).map
          (fun e => e.key)).Nodup) := by
  induction l with
  | nil => intro st t; simp
  | cons p ps ih =>
    intro st t
    simp only [List.foldl_cons]
    by_cases hp : p.1.title ≠ ""
    · rw [if_pos hp]
      rcases ih (setBm st p.1 p.2) t with ⟨ihmem, ihnd⟩
      refine ⟨?_, fun hnd => ihnd ((keys_setBm st p.1 p.2 t).2 hnd)⟩
      rw [ihmem, (keys_setBm st p.1 p.2 t).1, titlesOf_cons, List.mem_cons]
      constructor
      · rintro ((h | h) | ⟨h1, h2⟩)
        · exact Or.inl h
        · subst h; exact Or.inr ⟨hp, Or.inl rfl⟩
        · exact Or.inr ⟨h1, Or.inr h2⟩
      · rintro (h | ⟨h1, h2 | h3⟩)
        · exact Or.inl (Or.inl h)
        · subst h2; exact Or.inl (Or.inr rfl)
        · exact Or.inr ⟨h1, h3⟩
    · rw [if_neg hp]
      rw [not_not] at hp
      rcases ih st t with ⟨ihmem, ihnd⟩
      refine ⟨?_, ihnd⟩
      rw [ihmem, titlesOf_cons, List.mem_cons]
      constructor
      · rintro (h | ⟨h1, h2⟩)
        · exact Or.inl h
        · exact Or.inr ⟨h1, Or.inr h2⟩
      · rintro (h | ⟨h1, h2 | h3⟩)
        · exact Or.inl h
        · exact absurd (h2.trans hp) h1
        · exact Or.inr ⟨h1, h3⟩

theorem keys_vecFold (l : List (Sop × ℚ)) :
    ∀ (st : List MergeEntry) (t : String),
      (t ∈ (l.foldl (fun st p => if p.1.title ≠ "" then setVec st p.1 p.2 else st) st).map
          (fun e => e.key) ↔
        t ∈ st.map (fun e => e.key) ∨ (t ≠ "" ∧ t ∈ titlesOf l)) ∧
      ((st.map (fun e => e.key)).Nodup →
        ((l.foldl (fun st p => if p.1.title ≠ "" then setVec st p.1 p.2 else st) st).map
          (fun e => e.key)).Nodup) := by
  induction l with
  | nil => intro st t; simp
  | cons p ps ih =>
    intro st t
    simp only [List.foldl_cons]
    by_cases hp : p.1.title ≠ ""
    · rw [if_pos hp]
      rcases ih (setVec st p.1 p.2) t with ⟨ihmem, ihnd⟩
      refine ⟨?_, fun hnd => ihnd ((keys_setVec st p.1 p.2 t).2 hnd)⟩
      rw [ihmem, (keys_setVec st p.1 p.2 t).1, titlesOf_cons, List.mem_cons]
      constructor
      · rintro ((h | h) | ⟨h1, h2⟩)
        · exact Or.inl h
        · subst h; exact Or.inr ⟨hp, Or.inl rfl⟩
        · exact Or.inr ⟨h1, Or.inr h2⟩
      · rintro (h | ⟨h1, h2 | h3⟩)
        · exact Or.inl (Or.inl h)
        · subst h2; exact Or.inl (Or.inr rfl)
        · exact Or.inr ⟨h1, h3⟩
    · rw [if_neg hp]
      rw [not_not] at hp
      rcases ih st t with ⟨ihmem, ihnd⟩
      refine ⟨?_, ihnd⟩
      rw [ihmem, titlesOf_cons, List.mem_cons]
      constructor
      · rintro (h | ⟨h1, h2⟩)
        · exact Or.inl h
        · exact Or.inr ⟨h1, Or.inr h2⟩
      · rintro (h | ⟨h1, h2 | h3⟩)
        · exact Or.inl h
        · exact absurd (h2.trans hp) h1
        · exact Or.inr ⟨h1, h3⟩

theorem keys_mergeResults (bm vec : List (Sop × ℚ)) (t : String) :
    (t ∈ (mergeResults bm vec).map (fun e => e.key) ↔
      t ≠ "" ∧ (t ∈ titlesOf bm ∨ t ∈ titlesOf vec)) ∧
    ((mergeResults bm vec).map (fun e => e.key)).Nodup := by
  unfold mergeResults
  rcases keys_vecFold vec
      (bm.foldl (fun st p => if p.1.title ≠ "" then setBm st p.1 p.2 else st) []) t with
    ⟨hmem, hnd⟩
  rcases keys_bmFold bm [] t with ⟨hmem1, hnd1⟩
  refine ⟨?_, hnd (hnd1 (by simp))⟩
  rw [hmem, hmem1]
  simp only [List.map_nil, List.not_mem_nil, false_or]
  tauto

/-- Every entry of the merged dict satisfies: its sop\'s title is its key, a
title absent from the BM25 results has bm25 score `0`, and a title absent
from the vector results has vector score `0`. -/
theorem mergeResults_inv (bm vec : List (Sop × ℚ)) :
    ∀ e ∈ mergeResults bm vec,
      e.sop.title = e.key ∧
      (e.bm25Score = 0 ∨ e.key ∈ titlesOf bm) ∧
      (e.vectorScore = 0 ∨ e.key ∈ titlesOf vec) := by
  unfold mergeResults
  have h1 : ∀ e ∈ bm.foldl (fun st p => if p.1.title ≠ "" then setBm st p.1 p.2 else st) [],
      e.sop.title = e.key ∧ (e.bm25Score = 0 ∨ e.key ∈ titlesOf bm) ∧ e.vectorScore = 0 := by
    refine @foldl_induction (List MergeEntry) (Sop × ℚ)
      (fun st => ∀ e ∈ st,
        e.sop.title = e.key ∧ (e.bm25Score = 0 ∨ e.key ∈ titlesOf bm) ∧ e.vectorScore = 0)
      _ bm [] (by simp) ?_
    intro st p hp hinv e he
    by_cases hne : p.1.title ≠ ""
    · rw [if_pos hne] at he
      unfold setBm at he
      by_cases hany : st.any (fun e => e.key = p.1.title)
      · rw [if_pos hany] at he
        rcases List.mem_map.mp he with ⟨e0, he0, hupd⟩
        by_cases hk : e0.key = p.1.title
        · rw [if_pos hk] at hupd
          refine hupd ▸ ⟨hk.symm, Or.inr ?_, rfl⟩
          exact hk ▸ mem_titlesOf p hp rfl
        · rw [if_neg hk] at hupd
          exact hupd ▸ hinv e0 he0
      · rw [if_neg hany] at he
        rcases List.mem_append.mp he with he | he
        · exact hinv e he
        · rcases List.mem_singleton.mp he with rfl
          exact ⟨rfl, Or.inr (mem_titlesOf p hp rfl), rfl⟩
    · rw [if_neg hne] at he
      exact hinv e he
  refine @foldl_induction (List MergeEntry) (Sop × ℚ)
    (fun st => ∀ e ∈ st,
      e.sop.title = e.key ∧ (e.bm25Score = 0 ∨ e.key ∈ titlesOf bm) ∧
      (e.vectorScore = 0 ∨ e.key ∈ titlesOf vec))
    _ vec _ (fun e he => ?_) ?_
  · rcases h1 e he with ⟨ht, hb, hv⟩
    exact ⟨ht, hb, Or.inl hv⟩
  · intro st p hp hinv e he
    by_cases hne : p.1.title ≠ ""
    · rw [if_pos hne] at he
      unfold setVec at he
      by_cases hany : st.any (fun e => e.key = p.1.title)
      · rw [if_pos hany] at he
        rcases List.mem_map.mp he with ⟨e0, he0, hupd⟩
        by_cases hk : e0.key = p.1.title
        · rw [if_pos hk] at hupd
          rcases hinv e0 he0 with ⟨ht, hb, _⟩
          refine hupd ▸ ⟨ht, hb, Or.inr ?_⟩
          exact hk ▸ mem_titlesOf p hp rfl
        · rw [if_neg hk] at hupd
          exact hupd ▸ hinv e0 he0
      · rw [if_neg hany] at he
        rcases List.mem_append.mp he with he | he
        · exact hinv e he
        · rcases List.mem_singleton.mp he with rfl
          exact ⟨rfl, Or.inl rfl, Or.inr (mem_titlesOf p hp rfl)⟩
    · rw [if_neg hne] at he
      exact hinv e he

@[simp] theorem rowTitles_nil : rowTitles [] = [] := rfl

@[simp] theorem rowTitles_cons (r : HybridRow) (l : List HybridRow) :
    rowTitles (r :: l) = r.sop.title :: rowTitles l := rfl

theorem keys_rrfAdd (k : ℕ) (st : List RrfEntry) (rank : ℕ) (s : Sop) (t : String) :
    (t ∈ (rrfAdd k st rank s).map (fun e => e.key) ↔
      t ∈ st.map (fun e => e.key) ∨ (t = s.title ∧ s.title ≠ "")) ∧
    ((st.map (fun e => e.key)).Nodup →
      ((rrfAdd k st rank s).map (fun e => e.key)).Nodup) ∧
    ((∀ e ∈ st, e.sop.title = e.key) → ∀ e ∈ rrfAdd k st rank s, e.sop.title = e.key) := by
  by_cases h0 : s.title = ""
  · rw [rrfAdd, if_pos h0]
    refine ⟨⟨Or.inl, ?_⟩, id, fun h => h⟩
    rintro (h | ⟨h1, h2⟩)
    · exact h
    · exact absurd h0 h2
  · rw [rrfAdd, if_neg h0]
    by_cases hany : st.any (fun e => e.key = s.title)
    · rw [if_pos hany]
      have hkeys : (st.map (fun e =>
          if e.key = s.title then ⟨e.key, e.sop, e.score + 1 / ((k : ℚ) + rank + 1)⟩
          else e)).map (fun e => e.key) = st.map (fun e => e.key) := by
        rw [List.map_map]
        refine List.map_congr_left (fun e _ => ?_)
        by_cases he : e.key = s.title <;> simp [he]
      have hmem : s.title ∈ st.map (fun e => e.key) := by
        rcases List.any_eq_true.mp hany with ⟨e, he, hkey⟩
        exact List.mem_map.mpr ⟨e, he, decide_eq_true_eq.mp hkey⟩
      refine ⟨?_, ?_, ?_⟩
      · rw [hkeys]
        exact ⟨Or.inl, fun hc => hc.elim id (fun ht => ht.1 ▸ hmem)⟩
      · intro hnd
        rw [hkeys]
        exact hnd
      · intro hinv e he
        rcases List.mem_map.mp he with ⟨e0, he0, hupd⟩
        by_cases hk : e0.key = s.title
        · rw [if_pos hk] at hupd
          exact hupd ▸ hinv e0 he0
        · rw [if_neg hk] at hupd
          exact hupd ▸ hinv e0 he0
    · rw [if_neg hany]
      have habs : s.title ∉ st.map (fun e => e.key) := by
        intro hc
        rcases List.mem_map.mp hc with ⟨e, he, hkey⟩
        exact hany (List.any_eq_true.mpr ⟨e, he, decide_eq_true_eq.mpr hkey⟩)
      refine ⟨?_, ?_, ?_⟩
      · rw [List.map_append]
        simp only [List.map_cons, List.map_nil, List.mem_append, List.mem_singleton]
        exact ⟨fun hc => hc.elim Or.inl (fun ht => Or.inr ⟨ht, h0⟩),
          fun hc => hc.elim Or.inl (fun ht => Or.inr ht.1)⟩
      · intro hnd
        rw [List.map_append, List.nodup_append]
        refine ⟨hnd, by simp, ?_⟩
        intro a ha hb
        simp only [List.map_cons, List.map_nil, List.mem_singleton] at hb
        exact habs (hb ▸ ha)
      · intro hinv e he
        rcases List.mem_append.mp he with he | he
        · exact hinv e he
        · rcases List.mem_singleton.mp he with rfl
          rfl

theorem keys_rrfProcessFrom (k : ℕ) (l : List HybridRow) :
    ∀ (rank : ℕ) (st : List RrfEntry) (t : String),
      (t ∈ (rrfProcessFrom k rank st l).map (fun e => e.key) ↔
        t ∈ st.map (fun e => e.key) ∨ (t ≠ "" ∧ t ∈ rowTitles l)) ∧
      ((st.map (fun e => e.key)).Nodup →
        ((rrfProcessFrom k rank st l).map (fun e => e.key)).Nodup) ∧
      ((∀ e ∈ st, e.sop.title = e.key) →
        ∀ e ∈ rrfProcessFrom k rank st l, e.sop.title = e.key) := by
  induction l with
  | nil => intro rank st t; simp [rrfProcessFrom]
  | cons row rows ih =>
    intro rank st t
    rw [rrfProcessFrom]
    rcases ih (rank + 1) (rrfAdd k st rank row.sop) t with ⟨ihmem, ihnd, ihinv⟩
    rcases keys_rrfAdd k st rank row.sop t with ⟨amem, and', ainv⟩
    refine ⟨?_, fun hnd => ihnd (and' hnd), fun hinv => ihinv (ainv hinv)⟩
    rw [ihmem, amem, rowTitles_cons, List.mem_cons]
    constructor
    · rintro ((h | ⟨h1, h2⟩) | ⟨h1, h2⟩)
      · exact Or.inl h
      · exact Or.inr ⟨h1 ▸ h2, Or.inl h1⟩
      · exact Or.inr ⟨h1, Or.inr h2⟩
    · rintro (h | ⟨h1, h2 | h3⟩)
      · exact Or.inl (Or.inl h)
      · exact Or.inl (Or.inr ⟨h2, h2 ▸ h1⟩)
      · exact Or.inr ⟨h1, h3⟩

theorem keys_rrfState (k : ℕ) (lists : List (List HybridRow)) (t : String) :
    (t ∈ (rrfState k lists).map (fun e => e.key) ↔
      t ≠ "" ∧ ∃ l ∈ lists, t ∈ rowTitles l) ∧
    ((rrfState k lists).map (fun e => e.key)).Nodup ∧
    (∀ e ∈ rrfState k lists, e.sop.title = e.key) := by
  have main : ∀ (ls : List (List HybridRow)) (st : List RrfEntry),
      (t ∈ (ls.foldl (fun st l => rrfProcessFrom k 0 st l) st).map (fun e => e.key) ↔
        t ∈ st.map (fun e => e.key) ∨ (t ≠ "" ∧ ∃ l ∈ ls, t ∈ rowTitles l)) ∧
      ((st.map (fun e => e.key)).Nodup →
        ((ls.foldl (fun st l => rrfProcessFrom k 0 st l) st).map (fun e => e.key)).Nodup) ∧
      ((∀ e ∈ st, e.sop.title = e.key) →
        ∀ e ∈ ls.foldl (fun st l => rrfProcessFrom k 0 st l) st, e.sop.title = e.key) := by
    intro ls
    induction ls with
    | nil => intro st; simp
    | cons l rest ih =>
      intro st
      simp only [List.foldl_cons]
      rcases ih (rrfProcessFrom k 0 st l) with ⟨ihmem, ihnd, ihinv⟩
      rcases keys_rrfProcessFrom k l 0 st t with ⟨amem, and', ainv⟩
      refine ⟨?_, fun hnd => ihnd (and' hnd), fun hinv => ihinv (ainv hinv)⟩
      rw [ihmem, amem]
      constructor
      · rintro ((h | ⟨h1, h2⟩) | ⟨h1, l0, hl0, h2⟩)
        · exact Or.inl h
        · exact Or.inr ⟨h1, l, List.mem_cons_self l rest, h2⟩
        · exact Or.inr ⟨h1, l0, List.mem_cons_of_mem l hl0, h2⟩
      · rintro (h | ⟨h1, l0, hl0, h2⟩)
        · exact Or.inl (Or.inl h)
        · rcases List.mem_cons.mp hl0 with rfl | hl0
          · exact Or.inl (Or.inr ⟨h1, h2⟩)
          · exact Or.inr ⟨h1, l0, hl0, h2⟩
  rcases main lists [] with ⟨hmem, hnd, hinv⟩
  unfold rrfState
  refine ⟨?_, hnd (by simp), hinv (by simp)⟩
  rw [hmem]
  simp

theorem titles_hybridMerge (bm vec : List (Sop × ℚ)) (w1 w2 : ℚ) :
    ((hybridMerge bm vec w1 w2).map (fun r => r.sop.title)).Perm
      ((mergeResults bm vec).map (fun e => e.key)) := by
  have h1 : ((hybridMerge bm vec w1 w2).map (fun r => r.sop.title)).Perm
      ((hybridRows w1 w2 (mergeResults bm vec)).map (fun r => r.sop.title)) :=
    (sortDescBy_perm _ _).map _
  have h2 : (hybridRows w1 w2 (mergeResults bm vec)).map (fun r => r.sop.title) =
      (mergeResults bm vec).map (fun e => e.key) := by
    rw [hybridRows, List.map_map]
    exact List.map_congr_left (fun e he => (mergeResults_inv bm vec e he).1)
  exact h2 ▸ h1

theorem titles_fusion (lists : List (List HybridRow)) (k : ℕ) :
    ((reciprocalRankFusion lists k).map (fun p => p.1.title)).Perm
      ((rrfState k lists).map (fun e => e.key)) := by
  have h1 : ((reciprocalRankFusion lists k).map (fun p => p.1.title)).Perm
      (((rrfState k lists).map (fun e => (e.sop, e.score))).map (fun p => p.1.title)) :=
    (sortDescBy_perm _ _).map _
  have h2 : ((rrfState k lists).map (fun e => (e.sop, e.score))).map (fun p => p.1.title) =
      (rrfState k lists).map (fun e => e.key) := by
    rw [List.map_map]
    exact List.map_congr_left (fun e he => (keys_rrfState k lists "").2.2 e he)
  exact h2 ▸ h1

/-! ## C10 — document identity is the Title string throughout merge and fusion -/

/-- C10: Document identity in the per-query merge and in RRF fusion is the
`Title` string: the merged candidate list and the fused ranking carry no two
entries with the same title (two distinct corpus entries sharing a `Title`
collapse into one candidate), and a title appears in them exactly when it is
non-empty and was returned by a source (an empty or missing `Title` is
silently excluded even though the lexical or vector index returned the
document). -/
theorem c10_title_identity (bm vec : List (Sop × ℚ)) (w1 w2 : ℚ)
    (lists : List (List HybridRow)) (k : ℕ) (t : String) :
    ((hybridMerge bm vec w1 w2).map (fun r => r.sop.title)).Nodup ∧
    (t ∈ (hybridMerge bm vec w1 w2).map (fun r => r.sop.title) ↔
      t ≠ "" ∧ (t ∈ titlesOf bm ∨ t ∈ titlesOf vec)) ∧
    ((reciprocalRankFusion lists k).map (fun p => p.1.title)).Nodup ∧
    (t ∈ (reciprocalRankFusion lists k).map (fun p => p.1.title) ↔
      t ≠ "" ∧ ∃ l ∈ lists, t ∈ rowTitles l) := by
  refine ⟨?_, ?_, ?_, ?_⟩
  · exact (titles_hybridMerge bm vec w1 w2).nodup_iff.mpr (keys_mergeResults bm vec t).2
  · rw [(titles_hybridMerge bm vec w1 w2).mem_iff]
    exact (keys_mergeResults bm vec t).1
  · exact (titles_fusion lists k).nodup_iff.mpr (keys_rrfState k lists t).2.1
  · rw [(titles_fusion lists k).mem_iff]
    exact (keys_rrfState k lists t).1

/-! ## C6 amended — hybrid combination and score-positivity tags -/

/-- C6 as amended: the per-query merge combines by `Title`; every merged row
has `hybrid = bm25_weight·bm25 + vector_weight·vector`, a row whose title was
not returned by a source carries `0` for that source's signal, and the
provenance tag is computed from score positivity — `both` iff both merged
scores are positive, else `bm25` iff the bm25 score is positive, else
`vector` — not from source membership. -/
theorem c6_hybrid_combine (bm vec : List (Sop × ℚ)) (w1 w2 : ℚ) (row : HybridRow)
    (hrow : row ∈ hybridMerge bm vec w1 w2) :
    row.hybridScore = w1 * row.bm25Score + w2 * row.vectorScore ∧
    row.source = (if 0 < row.bm25Score ∧ 0 < row.vectorScore then "both"
      else if 0 < row.bm25Score then "bm25" else "vector") ∧
    (row.sop.title ∉ titlesOf bm → row.bm25Score = 0) ∧
    (row.sop.title ∉ titlesOf vec → row.vectorScore = 0) := by
  rw [hybridMerge, mem_sortDescBy] at hrow
  rcases List.mem_map.mp hrow with ⟨e, he, rfl⟩
  rcases mergeResults_inv bm vec e he with ⟨ht, hb, hv⟩
  refine ⟨rfl, rfl, ?_, ?_⟩
  · intro habs
    rcases hb with h | h
    · exact h
    · rw [← ht] at h
      exact absurd h habs
  · intro habs
    rcases hv with h | h
    · exact h
    · rw [← ht] at h
      exact absurd h habs

/-! ## C3 — retrieve never raises for backend failures -/

/-- C3: For every incident report and every outcome of the lexical search,
vector search, query-expansion and rerank stages — including any combination
of them raising — `retrieve` catches the failure at the stage boundary and
returns `Except.ok` of an `EnrichedContext`; no backend exception propagates
out of `retrieve`.  (Configuration-level failures — corpus or index
construction — happen in the constructors, before `retrieve` exists.) -/
theorem c3_retrieve_total (report : IncidentReport)
    (expandFn : Except String (List String))
    (bm25Fn : String → ℕ → Except String (List (Sop × ℚ)))
    (vectorFn : String → ℕ → Except String (List (VecDoc × ℚ)))
    (rerankFn : String → List Sop → Option ℕ → Except String (List (Sop × ℚ)))
    (bmW vecW : ℚ) (rrfK kPerQuery topKAfterRrf finalTopK : ℕ) :
    ∃ ctx, retrieve report expandFn bm25Fn vectorFn rerankFn
      bmW vecW rrfK kPerQuery topKAfterRrf finalTopK = Except.ok ctx :=
  ⟨_, rfl⟩

/-! ## C4 — `numVariants = 0` does not always return `[original]` -/

/-- C4 at the failing input: with `num_variants = 0`, a successful LLM call
whose first non-empty line differs from the original query makes
`expand_from_report` return a two-element list — the break of the collection
loop is tested only after a possible append, so `[original]` is not returned. -/
theorem c4_expand_zero_variants_failing_input :
    expandFromReport rptStuck 0 (Except.ok "container gate issue") =
      Except.ok ["vessel stuck", "container gate issue"] := by
  with_unfolding_all decide

/-! ## C5 — the expander raises on LLM failure; the orchestrator substitutes -/

/-- C5 counterexample: the component itself does not log-and-return
`[original]` on an external-call failure — `expand_from_report` re-raises the
failure as a `RuntimeError`. -/
theorem c5_counterexample_expander_raises :
    expandFromReport rptStuck 3 (Except.error "timeout") =
      Except.error "LLM query expansion failed: timeout" := by
  with_unfolding_all decide

/-- C5 as amended: when the LLM call inside `expand_from_report` fails, the
exception propagates to `retrieve`, whose `except` branch substitutes
`[original]` built by `_build_search_query`; retrieval proceeds and the query
set used for retrieval is exactly `[original]` — the original query is never
dropped. -/
theorem c5_expansion_failure_not_fatal (report : IncidentReport)
    (numVariants : ℕ) (msg : String)
    (bm25Fn : String → ℕ → Except String (List (Sop × ℚ)))
    (vectorFn : String → ℕ → Except String (List (VecDoc × ℚ)))
    (rerankFn : String → List Sop → Option ℕ → Except String (List (Sop × ℚ)))
    (bmW vecW : ℚ) (rrfK kPerQuery topKAfterRrf finalTopK : ℕ) :
    queriesOf (retrieve report
        (expandFromReport report numVariants (Except.error msg))
        bm25Fn vectorFn rerankFn bmW vecW rrfK kPerQuery topKAfterRrf finalTopK) =
      [buildSearchQuery report] ∧
    (retrieve report (expandFromReport report numVariants (Except.error msg))
        bm25Fn vectorFn rerankFn bmW vecW rrfK kPerQuery topKAfterRrf
        finalTopK).isOk = true :=
  ⟨rfl, rfl⟩

/-! ## C1 — duplicate ids in the final documents list -/

/-- C1 counterexample: a semantic-rerank response repeating a valid index
(`"0,0"`) makes the final `retrieve` documents list contain the same document
(same `Title`) twice — the range check keeps duplicate indices and no final
dedup step exists.  Here the two fusion candidates A, B yield the final list
`[A, A, B]`. -/
theorem c1_counterexample_duplicate_titles :
    ¬ ((retrievedOf (retrieve rptDup (Except.ok ["duplicate vessel name"])
          bm25FnAB vectorFnEmpty
          (fun q c t => Except.ok (semanticRerank q c t (Except.ok "0,0")))
          (2 / 5) (3 / 5) 60 10 10 3)).map Sop.title).Nodup := by
  with_unfolding_all decide

/-! ## C2 — rerank failure falls back to the fusion order, not lexical overlap -/

/-- C2 counterexample: with the semantic rerank call raising, the final
ordering is the pre-rerank fusion ordering `[A, B]`, while the deterministic
lexical-overlap (SimpleReranker) ordering of the same candidates for the same
query is `[B, A]` — the two orderings differ, so the final ordering does not
equal the lexical-overlap fallback ordering. -/
theorem c2_counterexample_fusion_order_kept :
    (retrievedOf (retrieve rptGate (Except.ok ["container gate timeout"])
        bm25FnAB2 vectorFnEmpty
        (fun q c t => Except.ok (semanticRerank q c t (Except.error "timeout")))
        (2 / 5) (3 / 5) 60 10 10 3)).map Sop.title =
      ["Vessel duplicate name error", "Container gate timeout"] ∧
    ((simpleRerank (buildSearchQuery rptGate) [exA, exB] (some 3)).map
        (fun p => p.1.title)) =
      ["Container gate timeout", "Vessel duplicate name error"] := by
  constructor <;> with_unfolding_all decide

/-! ## C6 — source tags follow score positivity, not source membership -/

/-- C6 counterexample: document B is returned only by the lexical source
(the vector result list is empty), but its normalised BM25 score is `0`, so
the merge tags it `"vector"` instead of the single returning source's tag. -/
theorem c6_counterexample_tag_not_membership :
    (hybridMerge [(exA, 1), (exB, 0)] [] (2 / 5) (3 / 5)).map
        (fun r => (r.sop.title, r.source)) =
      [("Vessel duplicate name error", "bm25"), ("Container gate timeout", "vector")] := by
  with_unfolding_all decide

/-! ## C8 — BM25 ties are returned in reverse corpus insertion order -/

/-- C8 counterexample: with both corpus documents scoring `0` for the query
(no query token occurs in either document), `np.argsort(scores)[::-1]`
returns the tied documents in reverse corpus insertion order `[B, A]`, not
insertion order `[A, B]`. -/
theorem c8_counterexample_tie_order :
    (bm25Search [exA, exB] (fun _ => [0, 0]) "zzz" 2).map Prod.fst = [exB, exA] ∧
      exB ≠ exA := by
  constructor
  · rfl
  · decide

/-- On a raised rerank LLM call the method's own `except` keeps the
candidates in their original order, so the extracted documents are the
truncated input candidates. -/
theorem semanticRerank_error_map_fst (q : String) (cands : List Sop) (t : ℕ)
    (msg : String) (h : 0 < t) :
    (semanticRerank q cands (some t) (Except.error msg)).map Prod.fst = cands.take t := by
  by_cases hc : cands.isEmpty
  · rw [List.isEmpty_iff] at hc
    simp [semanticRerank, hc]
  · simp only [semanticRerank, if_neg hc]
    rw [map_fst_enum_map (truncOpt (some t) cands) (fun n => 1 / ((n : ℚ) + 1)),
      truncOpt_of_pos h]

/-- C2 as amended: when the semantic rerank call raises, the final document
list equals the pre-rerank fusion ordering truncated to `final_top_k` — not
the lexical-overlap (SimpleReranker) fallback ordering, which the code uses
only when the semantic reranker was unavailable at construction time. -/
theorem c2_rerank_failure_keeps_fusion (report : IncidentReport)
    (expandFn : Except String (List String))
    (bm25Fn : String → ℕ → Except String (List (Sop × ℚ)))
    (vectorFn : String → ℕ → Except String (List (VecDoc × ℚ)))
    (bmW vecW : ℚ) (rrfK kPerQuery topKAfterRrf finalTopK : ℕ) (msg : String)
    (h : 0 < finalTopK) :
    retrievedOf (retrieve report expandFn bm25Fn vectorFn
        (fun q c t => Except.ok (semanticRerank q c t (Except.error msg)))
        bmW vecW rrfK kPerQuery topKAfterRrf finalTopK) =
      ((rrfTopOf report expandFn bm25Fn vectorFn bmW vecW rrfK kPerQuery
          topKAfterRrf).map Prod.fst).take finalTopK := by
  have h1 : retrievedOf (retrieve report expandFn bm25Fn vectorFn
      (fun q c t => Except.ok (semanticRerank q c t (Except.error msg)))
      bmW vecW rrfK kPerQuery topKAfterRrf finalTopK) =
      (semanticRerank (buildSearchQuery report)
        ((rrfTopOf report expandFn bm25Fn vectorFn bmW vecW rrfK kPerQuery
          topKAfterRrf).map Prod.fst)
        (some finalTopK) (Except.error msg)).map Prod.fst := rfl
  rw [h1, semanticRerank_error_map_fst _ _ _ _ h]

/-- Witness for the amended C2 at a concrete failing rerank call. -/
theorem c2_rerank_failure_keeps_fusion_witness :
    retrievedOf (retrieve rptGate (Except.ok ["container gate timeout"])
        bm25FnAB2 vectorFnEmpty
        (fun q c t => Except.ok (semanticRerank q c t (Except.error "timeout")))
        (2 / 5) (3 / 5) 60 10 10 3) =
      ((rrfTopOf rptGate (Except.ok ["container gate timeout"]) bm25FnAB2 vectorFnEmpty
          (2 / 5) (3 / 5) 60 10 10).map Prod.fst).take 3 :=
  c2_rerank_failure_keeps_fusion rptGate (Except.ok ["container gate timeout"])
    bm25FnAB2 vectorFnEmpty (2 / 5) (3 / 5) 60 10 10 3 "timeout" (by decide)

/-- Witness for the amended C6 at a concrete merged row. -/
theorem c6_hybrid_combine_witness :
    rowB.hybridScore = 2 / 5 * rowB.bm25Score + 3 / 5 * rowB.vectorScore ∧
    rowB.source = (if 0 < rowB.bm25Score ∧ 0 < rowB.vectorScore then "both"
      else if 0 < rowB.bm25Score then "bm25" else "vector") ∧
    (rowB.sop.title ∉ titlesOf [(exA, 1), (exB, 0)] → rowB.bm25Score = 0) ∧
    (rowB.sop.title ∉ titlesOf [] → rowB.vectorScore = 0) :=
  c6_hybrid_combine [(exA, 1), (exB, 0)] [] (2 / 5) (3 / 5) rowB
    (by with_unfolding_all decide)

/-- C9 counterexample: with an index holding 6 documents, `search_with_scores`
with `k = 6` returns only 5 results — the backend is queried with the
hardcoded `search_k = 5` before truncating to `k`, so it never returns the
`k` nearest documents for `k > 5`. -/
theorem c9_counterexample_hardcoded_five :
    searchResultLen (searchWithScores rankingSix "q" 6) = 5 ∧
      (rankingSix "q").length = 6 := by
  constructor <;> with_unfolding_all decide

/-- C9 as amended: for a non-blank query, `search_with_scores` returns the
`min k 5` nearest documents — the backend is queried with the hardcoded
`search_k = 5` and the result truncated to `k` — each paired with
`similarity = 1 - distance` computed exactly from the backend-returned
distance. -/
theorem c9_similarity_exact (ranking : String → List (VecDoc × ℚ))
    (query : String) (k : ℕ) (h : query.trim ≠ "") :
    searchWithScores ranking query k =
      Except.ok (((ranking query).take (min k 5)).map (fun p => (p.1, 1 - p.2))) := by
  rw [searchWithScores, if_neg h]
  rw [List.map_take, List.take_take, ← List.map_take]

/-- Witness for the amended C9 at a concrete backend and query. -/
theorem c9_similarity_exact_witness :
    searchWithScores rankingSix "q" 3 =
      Except.ok (((rankingSix "q").take (min 3 5)).map (fun p => (p.1, 1 - p.2))) :=
  c9_similarity_exact rankingSix "q" 3 (by with_unfolding_all decide)

theorem filter_title_map (t : String) (st : List RrfEntry)
    (hinv : ∀ e ∈ st, e.sop.title = e.key) :
    ((st.map (fun e => (e.sop, e.score))).filter (fun p => p.1.title = t)).map
        (fun p => p.2) =
      (st.filter (fun e => e.key = t)).map (fun e => e.score) := by
  induction st with
  | nil => rfl
  | cons e es ih =>
    have he := hinv e (List.mem_cons_self e es)
    have ihe := ih (fun x hx => hinv x (List.mem_cons_of_mem e hx))
    by_cases h : e.key = t
    · simp only [List.map_cons, List.filter_cons]
      rw [he]
      simp [h, ihe]
    · simp only [List.map_cons, List.filter_cons]
      rw [he]
      simp [h, ihe]

theorem fusionScoreOf_eq_stateScore (lists : List (List HybridRow)) (k : ℕ)
    (t : String) : fusionScoreOf lists k t = stateScore t (rrfState k lists) := by
  have hperm : (reciprocalRankFusion lists k).Perm
      ((rrfState k lists).map (fun e => (e.sop, e.score))) := sortDescBy_perm _ _
  have h1 := (hperm.filter (fun p => p.1.title = t)).map (fun p => p.2)
  rw [fusionScoreOf, h1.sum_eq,
    filter_title_map t (rrfState k lists) (keys_rrfState k lists t).2.2, stateScore]

theorem stateScore_append (t : String) (st : List RrfEntry) (e : RrfEntry) :
    stateScore t (st ++ [e]) = stateScore t st + (if e.key = t then e.score else 0) := by
  by_cases h : e.key = t <;> simp [stateScore, List.filter_append, List.filter_cons, h]

theorem stateScore_cons (t : String) (e : RrfEntry) (es : List RrfEntry) :
    stateScore t (e :: es) = (if e.key = t then e.score else 0) + stateScore t es := by
  by_cases h : e.key = t <;> simp [stateScore, List.filter_cons, h]

theorem stateScore_bump (t : String) (s : Sop) (δ : ℚ) :
    ∀ st : List RrfEntry, (st.map (fun e => e.key)).Nodup →
      stateScore t (st.map (fun e =>
          if e.key = s.title then ⟨e.key, e.sop, e.score + δ⟩ else e)) =
        stateScore t st +
          (if s.title = t ∧ s.title ∈ st.map (fun e => e.key) then δ else 0) := by
  intro st
  induction st with
  | nil => simp [stateScore]
  | cons e es ih =>
    intro hnd
    rw [List.map_cons, List.nodup_cons] at hnd
    rcases hnd with ⟨hknotin, hndes⟩
    have ihes := ih hndes
    have hcond : (s.title = t ∧ s.title ∈ (e :: es).map (fun e => e.key)) ↔
        ((s.title = t ∧ s.title = e.key) ∨
          (s.title = t ∧ s.title ∈ es.map (fun e => e.key))) := by
      rw [List.map_cons, List.mem_cons]
      tauto
    rw [List.map_cons, stateScore_cons, stateScore_cons, if_congr hcond rfl rfl]
    by_cases hk : e.key = s.title
    · have hes_id : es.map (fun e =>
          if e.key = s.title then (⟨e.key, e.sop, e.score + δ⟩ : RrfEntry) else e) = es := by
        have h1 : es.map (fun e =>
            if e.key = s.title then (⟨e.key, e.sop, e.score + δ⟩ : RrfEntry) else e) =
            es.map id := by
          refine List.map_congr_left (fun x hx => ?_)
          have hxk : x.key ≠ s.title := by
            intro hc
            exact hknotin (hk ▸ hc ▸ List.mem_map.mpr ⟨x, hx, rfl⟩)
          rw [if_neg hxk, id]
        rw [h1, List.map_id]
      rw [if_pos hk, hes_id]
      have hnotin_es : s.title ∉ es.map (fun e => e.key) := hk ▸ hknotin
      by_cases ht : s.title = t
      · have het : (⟨e.key, e.sop, e.score + δ⟩ : RrfEntry).key = t := hk.trans ht
        rw [if_pos het, if_pos (show e.key = t from hk.trans ht),
          if_pos (Or.inl ⟨ht, hk.symm⟩)]
        ring
      · have het : ¬ (⟨e.key, e.sop, e.score + δ⟩ : RrfEntry).key = t := by
          intro hc
          exact ht (hk ▸ hc)
        have het2 : ¬ e.key = t := fun hc => ht (hk ▸ hc)
        rw [if_neg het, if_neg het2,
          if_neg (show ¬ _ from fun hc => hc.elim (fun h => ht h.1) (fun h => ht h.1))]
        ring
    · rw [if_neg hk, ihes]
      have hcond2 : (s.title = t ∧ s.title = e.key) ↔ False := by
        constructor
        · rintro ⟨_, h2⟩
          exact hk h2.symm
        · exact False.elim
      rw [if_congr (or_congr hcond2 Iff.rfl) rfl rfl,
        if_congr (iff_of_eq (false_or (s.title = t ∧ s.title ∈ es.map (fun e => e.key)))) rfl rfl]
      ring

theorem stateScore_rrfAdd (k rank : ℕ) (t : String) (s : Sop) (st : List RrfEntry)
    (ht : t ≠ "") (hnd : (st.map (fun e => e.key)).Nodup) :
    stateScore t (rrfAdd k st rank s) =
      stateScore t st + (if s.title = t then 1 / ((k : ℚ) + rank + 1) else 0) := by
  by_cases h0 : s.title = ""
  · rw [rrfAdd, if_pos h0, if_neg (fun hc : s.title = t => ht (hc.symm.trans h0))]
    ring
  · rw [rrfAdd, if_neg h0]
    by_cases hany : st.any (fun e => e.key = s.title)
    · rw [if_pos hany]
      have hmem : s.title ∈ st.map (fun e => e.key) := by
        rcases List.any_eq_true.mp hany with ⟨e, he, hkey⟩
        exact List.mem_map.mpr ⟨e, he, decide_eq_true_eq.mp hkey⟩
      rw [stateScore_bump t s (1 / ((k : ℚ) + rank + 1)) st hnd]
      by_cases hst : s.title = t
      · rw [if_pos ⟨hst, hmem⟩, if_pos hst]
      · rw [if_neg (fun hc : s.title = t ∧ _ => hst hc.1), if_neg hst]
    · rw [if_neg hany, stateScore_append]

theorem stateScore_processFrom (k : ℕ) (t : String) (ht : t ≠ "") :
    ∀ (l : List HybridRow) (rank : ℕ) (st : List RrfEntry),
      (st.map (fun e => e.key)).Nodup →
      stateScore t (rrfProcessFrom k rank st l) =
        stateScore t st + contribFrom t k rank l := by
  intro l
  induction l with
  | nil =>
    intro rank st _
    simp [rrfProcessFrom, contribFrom]
  | cons row rest ih =>
    intro rank st hnd
    simp only [rrfProcessFrom, contribFrom]
    rw [ih (rank + 1) (rrfAdd k st rank row.sop)
        ((keys_rrfAdd k st rank row.sop t).2.1 hnd),
      stateScore_rrfAdd k rank t row.sop st ht hnd]
    ring

theorem stateScore_rrfState (k : ℕ) (t : String) (ht : t ≠ "")
    (lists : List (List HybridRow)) :
    stateScore t (rrfState k lists) =
      (lists.map (fun l => contribFrom t k 0 l)).sum := by
  have main : ∀ (ls : List (List HybridRow)) (st : List RrfEntry),
      (st.map (fun e => e.key)).Nodup →
      stateScore t (ls.foldl (fun st l => rrfProcessFrom k 0 st l) st) =
        stateScore t st + (ls.map (fun l => contribFrom t k 0 l)).sum := by
    intro ls
    induction ls with
    | nil =>
      intro st _
      simp
    | cons l rest ih =>
      intro st hnd
      simp only [List.foldl_cons, List.map_cons, List.sum_cons]
      rw [ih (rrfProcessFrom k 0 st l) ((keys_rrfProcessFrom k l 0 st t).2.1 hnd),
        stateScore_processFrom k t ht l 0 st hnd]
      ring
  unfold rrfState
  rw [main lists [] (by simp)]
  simp [stateScore]

theorem contribFrom_of_not_mem (t : String) (k : ℕ) :
    ∀ (l : List HybridRow) (rank : ℕ), t ∉ rowTitles l →
      contribFrom t k rank l = 0 := by
  intro l
  induction l with
  | nil => intro rank _; rfl
  | cons row rest ih =>
    intro rank hmem
    rw [rowTitles_cons, List.mem_cons] at hmem
    push_neg at hmem
    simp only [contribFrom]
    rw [if_neg (fun hc : row.sop.title = t => hmem.1 hc.symm), ih (rank + 1) hmem.2]
    ring

theorem contribFrom_eq_spec (t : String) (k : ℕ) :
    ∀ l : List HybridRow, (rowTitles l).Nodup → ∀ rank : ℕ,
      contribFrom t k rank l =
        (match rankOfTitle t l with
          | some r => 1 / ((k : ℚ) + rank + r + 1)
          | none => 0) := by
  intro l
  induction l with
  | nil => intro _ rank; rfl
  | cons row rest ih =>
    intro hnd rank
    rw [rowTitles_cons, List.nodup_cons] at hnd
    rcases hnd with ⟨hnotin, hndrest⟩
    simp only [contribFrom, rankOfTitle]
    by_cases h : row.sop.title = t
    · rw [if_pos h, if_pos h, contribFrom_of_not_mem t k rest (rank + 1) (h ▸ hnotin)]
      push_cast
      ring
    · rw [if_neg h, if_neg h, ih hndrest (rank + 1)]
      cases hr : rankOfTitle t rest with
      | none => simp
      | some r =>
        simp only [Option.map_some']
        push_cast
        ring

/-- C7: a document with (non-empty) title `t` sitting at 0-based rank `r` of
a per-query hybrid ranking contributes exactly `1/(k + r + 1)` to that
title's cumulative fusion score, a ranking not containing the title
contributes `0`, and consequently a title at rank 0 of every one of the `N`
rankings receives fusion score `N/(k + 1)`. -/
theorem c7_rrf_contribution (lists : List (List HybridRow)) (k : ℕ) (t : String)
    (ht : t ≠ "") (hnd : ∀ l ∈ lists, (rowTitles l).Nodup) :
    fusionScoreOf lists k t = (lists.map (fun l => specContrib t k l)).sum ∧
    ((∀ l ∈ lists, rankOfTitle t l = some 0) →
      fusionScoreOf lists k t = (lists.length : ℚ) / ((k : ℚ) + 1)) := by
  have hmain : fusionScoreOf lists k t = (lists.map (fun l => specContrib t k l)).sum := by
    rw [fusionScoreOf_eq_stateScore, stateScore_rrfState k t ht]
    refine congrArg List.sum (List.map_congr_left (fun l hl => ?_))
    rw [contribFrom_eq_spec t k l (hnd l hl) 0, specContrib]
    cases hr : rankOfTitle t l with
    | none => rfl
    | some r =>
      push_cast
      ring
  refine ⟨hmain, fun hr0 => ?_⟩
  rw [hmain]
  have hconst : ∀ l ∈ lists, specContrib t k l = 1 / ((k : ℚ) + 1) := by
    intro l hl
    rw [specContrib, hr0 l hl]
    norm_num
  rw [List.map_congr_left hconst, List.map_const', List.sum_replicate, nsmul_eq_mul,
    mul_one_div]

theorem map_fst_enum_map2 (l : List α) (g : α → γ) (f : ℕ → β) :
    (((l.enum).map (fun p => (g p.2, f p.1))).map Prod.fst) = l.map g := by
  rw [List.map_map]
  have h : (Prod.fst ∘ fun p : ℕ × α => (g p.2, f p.1)) = (g ∘ Prod.snd) := rfl
  rw [h, ← List.map_map, List.enum_map_snd]

theorem title_getD_inj (cands : List Sop) (hnd : (cands.map Sop.title).Nodup)
    {i j : ℕ} (hi : i < cands.length) (hj : j < cands.length)
    (h : (cands.getD i default).title = (cands.getD j default).title) : i = j := by
  have hi' : i < (cands.map Sop.title).length := by simpa using hi
  have hj' : j < (cands.map Sop.title).length := by simpa using hj
  have h1 : (cands.map Sop.title).get ⟨i, hi'⟩ = (cands.map Sop.title).get ⟨j, hj'⟩ := by
    rw [List.get_map, List.get_map]
    rw [List.getD_eq_get cands default hi, List.getD_eq_get cands default hj] at h
    exact h
  have h2 := (List.Nodup.get_inj_iff hnd).mp h1
  exact congrArg Fin.val h2

theorem fusion_titles_nodup (lists : List (List HybridRow)) (k : ℕ) :
    ((reciprocalRankFusion lists k).map (fun p => p.1.title)).Nodup :=
  (titles_fusion lists k).nodup_iff.mpr (keys_rrfState k lists "").2.1

/-- `SemanticReranker.rerank` keeps the extracted documents duplicate-free
(by title) and bounded by a positive `top_k`, provided the candidates are
title-distinct and any parsed rerank response carries duplicate-free
indices. -/
theorem semanticRerank_titles (q : String) (cands : List Sop) (tk : ℕ)
    (resp : Except String String)
    (hnd : (cands.map Sop.title).Nodup)
    (hresp : ∀ s, resp = Except.ok s → (rawIndices s).Nodup)
    (htk : 0 < tk) :
    (((semanticRerank q cands (some tk) resp).map Prod.fst).map Sop.title).Nodup ∧
    (semanticRerank q cands (some tk) resp).length ≤ tk := by
  by_cases hc : cands.isEmpty
  · simp [semanticRerank, hc]
  · match resp with
    | .error msg =>
      constructor
      · rw [semanticRerank_error_map_fst q cands tk msg htk, List.map_take]
        exact List.Nodup.sublist (List.take_sublist tk (cands.map Sop.title)) hnd
      · simp only [semanticRerank, if_neg hc]
        rw [List.length_map, List.enum_length]
        exact length_truncOpt_le htk cands
    | .ok s =>
      have hraw : (rawIndices s).Nodup := hresp s rfl
      simp only [semanticRerank, if_neg hc]
      set n := cands.length with hn
      have hvalid_nd : (parsedIndices s n).Nodup := List.Nodup.filter _ hraw
      have hvalid_lt : ∀ i ∈ parsedIndices s n, i < n := by
        intro i hi
        rcases List.mem_filter.mp hi with ⟨_, hlt⟩
        exact decide_eq_true_eq.mp hlt
      set base := if (parsedIndices s n).isEmpty then List.range n else parsedIndices s n
        with hbase
      have hbase_nd : base.Nodup := by
        rw [hbase]
        by_cases he : (parsedIndices s n).isEmpty
        · rw [if_pos he]; exact List.nodup_range n
        · rw [if_neg he]; exact hvalid_nd
      have hbase_lt : ∀ i ∈ base, i < n := by
        rw [hbase]
        by_cases he : (parsedIndices s n).isEmpty
        · rw [if_pos he]; intro i hi; exact List.mem_range.mp hi
        · rw [if_neg he]; exact hvalid_lt
      set missing := (List.range n).filter (fun i => ¬ base.contains i) with hmissing
      have hmissing_nd : missing.Nodup := List.Nodup.filter _ (List.nodup_range n)
      have hmissing_lt : ∀ i ∈ missing, i < n := by
        intro i hi
        exact List.mem_range.mp (List.mem_of_mem_filter hi)
      have hdisj : ∀ a, a ∈ base → a ∈ missing → False := by
        intro a ha hm
        rcases List.mem_filter.mp hm with ⟨_, hnc⟩
        rw [decide_eq_true_eq] at hnc
        exact hnc (List.elem_iff.mpr ha)
      have hranked_nd : (base ++ missing).Nodup := by
        rw [List.nodup_append]
        exact ⟨hbase_nd, hmissing_nd, hdisj⟩
      have hranked_lt : ∀ i ∈ base ++ missing, i < n := by
        intro i hi
        rcases List.mem_append.mp hi with h | h
        · exact hbase_lt i h
        · exact hmissing_lt i h
      constructor
      · have hfst : (((truncOpt (some tk) ((base ++ missing).enum.map
            (fun p => (cands.getD p.2 default, 1 / ((p.1 : ℚ) + 1))))).map Prod.fst).map
              Sop.title).Nodup := by
          rw [truncOpt_of_pos htk, List.map_take, List.map_take,
            map_fst_enum_map2 (base ++ missing) (fun i => cands.getD i default)
              (fun r => 1 / ((r : ℚ) + 1))]
          rw [List.map_map]
          refine List.Nodup.sublist (List.take_sublist tk _) ?_
          refine List.Nodup.map_on ?_ hranked_nd
          intro x hx y hy hxy
          exact title_getD_inj cands hnd (hranked_lt x hx) (hranked_lt y hy) hxy
        exact hfst
      · rw [truncOpt_of_pos htk]
        simp [List.length_take]

/-! ## C1 amended — no duplicate titles, bounded length -/

/-- C1 as amended: the final document list of `retrieve` has no duplicate
titles and length at most `final_top_k`, provided `final_top_k ≥ 1` and a
successfully parsed rerank response carries no duplicate index (always true
of the fallback paths).  Without those provisos the claim fails: a response
repeating a valid index duplicates a document, and `final_top_k = 0`
disables the semantic reranker's truncation. -/
theorem c1_final_dedup (report : IncidentReport)
    (expandFn : Except String (List String))
    (bm25Fn : String → ℕ → Except String (List (Sop × ℚ)))
    (vectorFn : String → ℕ → Except String (List (VecDoc × ℚ)))
    (resp : Except String String)
    (bmW vecW : ℚ) (rrfK kPerQuery topKAfterRrf finalTopK : ℕ)
    (hk : 0 < finalTopK)
    (hresp : ∀ s, resp = Except.ok s → (rawIndices s).Nodup) :
    ((retrievedOf (retrieve report expandFn bm25Fn vectorFn
        (fun q c t => Except.ok (semanticRerank q c t resp))
        bmW vecW rrfK kPerQuery topKAfterRrf finalTopK)).map Sop.title).Nodup ∧
    (retrievedOf (retrieve report expandFn bm25Fn vectorFn
        (fun q c t => Except.ok (semanticRerank q c t resp))
        bmW vecW rrfK kPerQuery topKAfterRrf finalTopK)).length ≤ finalTopK := by
  have h1 : retrievedOf (retrieve report expandFn bm25Fn vectorFn
      (fun q c t => Except.ok (semanticRerank q c t resp))
      bmW vecW rrfK kPerQuery topKAfterRrf finalTopK) =
      (semanticRerank (buildSearchQuery report)
        ((rrfTopOf report expandFn bm25Fn vectorFn bmW vecW rrfK kPerQuery
          topKAfterRrf).map Prod.fst)
        (some finalTopK) resp).map Prod.fst := rfl
  have hcnd : ((((rrfTopOf report expandFn bm25Fn vectorFn bmW vecW rrfK kPerQuery
      topKAfterRrf).map Prod.fst)).map Sop.title).Nodup := by
    rw [List.map_map]
    have h2 : (Sop.title ∘ Prod.fst) = (fun p : Sop × ℚ => p.1.title) := rfl
    rw [h2]
    unfold rrfTopOf
    rw [List.map_take]
    exact List.Nodup.sublist (List.take_sublist _ _)
      (fusion_titles_nodup (allQueryResultsOf report expandFn bm25Fn vectorFn bmW vecW
        kPerQuery) rrfK)
  rcases semanticRerank_titles (buildSearchQuery report)
      ((rrfTopOf report expandFn bm25Fn vectorFn bmW vecW rrfK kPerQuery
        topKAfterRrf).map Prod.fst)
      finalTopK resp hcnd hresp hk with ⟨hnd', hlen⟩
  constructor
  · rw [h1]
    exact hnd'
  · rw [h1, List.length_map]
    exact hlen

/-- Witness for the amended C1: a well-formed rerank response `"1,0"` on two
candidates keeps the final list duplicate-free and within `final_top_k`. -/
theorem c1_final_dedup_witness :
    ((retrievedOf (retrieve rptDup (Except.ok ["duplicate vessel name"])
        bm25FnAB vectorFnEmpty
        (fun q c t => Except.ok (semanticRerank q c t (Except.ok "1,0")))
        (2 / 5) (3 / 5) 60 10 10 3)).map Sop.title).Nodup ∧
    (retrievedOf (retrieve rptDup (Except.ok ["duplicate vessel name"])
        bm25FnAB vectorFnEmpty
        (fun q c t => Except.ok (semanticRerank q c t (Except.ok "1,0")))
        (2 / 5) (3 / 5) 60 10 10 3)).length ≤ 3 :=
  c1_final_dedup rptDup (Except.ok ["duplicate vessel name"]) bm25FnAB vectorFnEmpty
    (Except.ok "1,0") (2 / 5) (3 / 5) 60 10 10 3 (by decide)
    (by
      intro s hs
      cases hs
      with_unfolding_all decide)

/-- Witness for C7 at two per-query rankings both led by document A. -/
theorem c7_rrf_contribution_witness :
    fusionScoreOf [[rowA], [rowA]] 60 "Vessel duplicate name error" =
      (([[rowA], [rowA]] : List (List HybridRow)).map
        (fun l => specContrib "Vessel duplicate name error" 60 l)).sum ∧
    ((∀ l ∈ ([[rowA], [rowA]] : List (List HybridRow)),
        rankOfTitle "Vessel duplicate name error" l = some 0) →
      fusionScoreOf [[rowA], [rowA]] 60 "Vessel duplicate name error" =
        (([[rowA], [rowA]] : List (List HybridRow)).length : ℚ) / (((60 : ℕ) : ℚ) + 1)) :=
  c7_rrf_contribution [[rowA], [rowA]] 60 "Vessel duplicate name error"
    (by decide) (by with_unfolding_all decide)

theorem insertAscIdx_perm (scores : List ℚ) (i : ℕ) (l : List ℕ) :
    (insertAscIdx scores i l).Perm (i :: l) := by
  induction l with
  | nil => simp [insertAscIdx]
  | cons j js ih =>
    by_cases h : scores.getD i 0 < scores.getD j 0
    · simp only [insertAscIdx]
      rw [if_pos h]
    · simp only [insertAscIdx]
      rw [if_neg h]
      exact (ih.cons j).trans (List.Perm.swap i j js)

theorem insertAscIdx_pairwise (scores : List ℚ) (i : ℕ) :
    ∀ l : List ℕ, List.Pairwise (argRel scores) l → (∀ x ∈ l, x < i) →
      List.Pairwise (argRel scores) (insertAscIdx scores i l) := by
  intro l
  induction l with
  | nil =>
    intro _ _
    simp [insertAscIdx]
  | cons j js ih =>
    intro hp hlt
    rw [List.pairwise_cons] at hp
    rcases hp with ⟨hj, hjs⟩
    by_cases h : scores.getD i 0 < scores.getD j 0
    · rw [insertAscIdx, if_pos h]
      rw [List.pairwise_cons]
      refine ⟨?_, List.pairwise_cons.mpr ⟨hj, hjs⟩⟩
      intro y hy
      rcases List.mem_cons.mp hy with rfl | hy
      · exact Or.inl h
      · rcases hj y hy with hlt' | ⟨heq, _⟩
        · exact Or.inl (h.trans hlt')
        · exact Or.inl (heq ▸ h)
    · rw [insertAscIdx, if_neg h]
      rw [List.pairwise_cons]
      constructor
      · intro y hy
        rcases List.mem_cons.mp ((insertAscIdx_perm scores i js).mem_iff.mp hy) with
          rfl | hy2
        · rcases lt_or_eq_of_le (not_lt.mp h) with hlt2 | heq
          · exact Or.inl hlt2
          · exact Or.inr ⟨heq, hlt j (List.mem_cons_self j js)⟩
        · exact hj y hy2
      · exact ih hjs (fun x hx => hlt x (List.mem_cons_of_mem j hx))

theorem argsortAsc_spec (scores : List ℚ) :
    (argsortAsc scores).Perm (List.range scores.length) ∧
    List.Pairwise (argRel scores) (argsortAsc scores) := by
  suffices h : ∀ n : ℕ,
      (((List.range n).foldl (fun acc i => insertAscIdx scores i acc) []).Perm
        (List.range n)) ∧
      List.Pairwise (argRel scores)
        ((List.range n).foldl (fun acc i => insertAscIdx scores i acc) []) ∧
      (∀ x ∈ (List.range n).foldl (fun acc i => insertAscIdx scores i acc) [], x < n) by
    rcases h scores.length with ⟨h1, h2, _⟩
    exact ⟨h1, h2⟩
  intro n
  induction n with
  | zero => simp
  | succ n ih =>
    rcases ih with ⟨ihperm, ihpw, ihlt⟩
    rw [List.range_succ, List.foldl_append, List.foldl_cons, List.foldl_nil]
    set pile := (List.range n).foldl (fun acc i => insertAscIdx scores i acc) [] with hpile
    refine ⟨?_, ?_, ?_⟩
    · exact (insertAscIdx_perm scores n pile).trans
        ((ihperm.cons n).trans (List.perm_append_singleton n (List.range n)).symm)
    · exact insertAscIdx_pairwise scores n pile ihpw ihlt
    · intro x hx
      rcases List.mem_cons.mp ((insertAscIdx_perm scores n pile).mem_iff.mp hx) with
        rfl | hx2
      · exact Nat.lt_succ_self x
      · exact Nat.lt_succ_of_lt (ihlt x hx2)

/-- C8 as amended: `BM25Retriever.search` returns the documents at the
indices `np.argsort(scores)[::-1][:k]`: the index sequence is a permutation
of all corpus positions ordered by descending BM25 score, but equal-scored
documents appear in *reverse* corpus insertion order — the ascending argsort
is stable (ties in insertion order) and the subsequent reversal flips the
ties — and the returned pairs are the top-`k` prefix of that sequence with
their raw scores. -/
theorem c8_bm25_descending (corpus : List Sop) (getScores : List String → List ℚ)
    (query : String) (k : ℕ) :
    (argsortAsc (getScores (tokenize query))).Perm
      (List.range (getScores (tokenize query)).length) ∧
    List.Pairwise (fun i j =>
        (getScores (tokenize query)).getD j 0 < (getScores (tokenize query)).getD i 0 ∨
        ((getScores (tokenize query)).getD j 0 = (getScores (tokenize query)).getD i 0 ∧
          j < i))
      ((argsortAsc (getScores (tokenize query))).reverse) ∧
    bm25Search corpus getScores query k =
      (((argsortAsc (getScores (tokenize query))).reverse).take k).map
        (fun i => (corpus.getD i default, (getScores (tokenize query)).getD i 0)) := by
  refine ⟨(argsortAsc_spec (getScores (tokenize query))).1, ?_, rfl⟩
  rw [List.pairwise_reverse]
  exact (argsortAsc_spec (getScores (tokenize query))).2

end PortSentinel
